import Mathlib

/-!
Shallow embedding of the fusion-compiler expression pipeline.

The repository's `src/ast/mod.rs` (AST data model, visitor, printer,
operator precedence) and `src/main.rs` (driver) are embedded from their
source. The lexer, parser and evaluator modules (`src/ast/lexer.rs`,
`src/ast/parser.rs`, `src/ast/evaluator.rs`) are declared and used by the
repository but their source files are not present; those components are
modelled from the specification (sections 4.1, 4.3 and 4.4 of the spec),
and every definition doing so says which part it models.

Rust `i64` values are modelled as `Int` (the spec fixes only that
arithmetic is signed integer arithmetic with truncating division, which
`Int.tdiv` matches); `usize` counters as `Nat`. Printing to stdout is
modelled by accumulating the printed lines in the visitor state, one list
entry per `println!` call.
-/

/-- Token kinds, from the spec's data model section: Number carries its
parsed integer value; Whitespace and Bad keep their source text; End is
the sentinel emitted once at end of input. -/
inductive TokenKind where
  | Number (value : Int)
  | Plus
  | Minus
  | Star
  | Slash
  | LeftParen
  | RightParen
  | Whitespace
  | Bad
  | End
deriving DecidableEq, Repr

/-- Source span of a token: start offset (in characters) and the literal
source text, modelled as the list of characters it covers. -/
structure TextSpan where
  start : Nat
  literal : List Char
deriving DecidableEq, Repr

/-- Modelled from the spec: a token as produced by the missing lexer
module, a kind together with its source span. -/
structure Token where
  kind : TokenKind
  span : TextSpan
deriving DecidableEq, Repr

/-- Binary operator kinds, from `ASTBinaryOperatorKind` in src/ast/mod.rs. -/
inductive ASTBinaryOperatorKind where
  | Plus
  | Minus
  | Multiply
  | Divide
deriving DecidableEq, Repr

/-- Rendering of `ASTBinaryOperatorKind` by Rust's derived Debug
formatter, as used by the printer's `format!("Operator: {:?}", ..)`. -/
def ASTBinaryOperatorKind.debugText : ASTBinaryOperatorKind → String
  | .Plus => "Plus"
  | .Minus => "Minus"
  | .Multiply => "Multiply"
  | .Divide => "Divide"

/-- Binary operator from src/ast/mod.rs: a kind plus the originating
token. -/
structure ASTBinaryOperator where
  kind : ASTBinaryOperatorKind
  token : Token
deriving DecidableEq, Repr

/-- Precedence from `ASTBinaryOperator::precedence` in src/ast/mod.rs:
Plus and Minus map to 1, Multiply and Divide map to 2 (a `u8` in the
source, modelled as `Nat`). -/
def ASTBinaryOperator.precedence (op : ASTBinaryOperator) : Nat :=
  match op.kind with
  | .Plus | .Minus => 1
  | .Multiply | .Divide => 2

/-- Expressions from src/ast/mod.rs. The Rust source wraps each variant's
fields into a payload struct (`ASTNumberExpression`,
`ASTBinaryExpression`, `ASTParenthesizedExpression`) inside
`ASTExpressionKind` inside `ASTExpression`; the embedding flattens that
into one sum type carrying the same fields, as the spec's design notes
describe the model. -/
inductive ASTExpression where
  | Number (number : Int)
  | Binary (left : ASTExpression) (operator : ASTBinaryOperator) (right : ASTExpression)
  | Parenthesized (expression : ASTExpression)
deriving DecidableEq, Repr

/-- Statement kinds from src/ast/mod.rs: only the Expression variant. -/
inductive ASTStatementKind where
  | Expression (expr : ASTExpression)
deriving DecidableEq, Repr

/-- Statement from src/ast/mod.rs: a wrapper around its kind. -/
structure ASTStatement where
  kind : ASTStatementKind
deriving DecidableEq, Repr

/-- Constructor `ASTStatement::expression` from src/ast/mod.rs. -/
def ASTStatement.expression (expr : ASTExpression) : ASTStatement :=
  ⟨.Expression expr⟩

/-- The `Ast` struct from src/ast/mod.rs: an ordered sequence of
statements. -/
structure Ast where
  statements : List ASTStatement
deriving DecidableEq, Repr

/-- `Ast::new` from src/ast/mod.rs. -/
def Ast.new : Ast := ⟨[]⟩

/-- `Ast::add_statement` from src/ast/mod.rs: pushes the statement at the
end of the sequence. -/
def Ast.add_statement (a : Ast) (statement : ASTStatement) : Ast :=
  ⟨a.statements ++ [statement]⟩

/-- `Ast::visit` from src/ast/mod.rs: calls the visitor's
`visit_statement` on each stored statement in order. The Rust `&mut dyn
ASTVisitor` is modelled by explicit state passing: `f` is the visitor's
`visit_statement` method acting on the visitor state `σ`. -/
def Ast.visit {σ : Type} (a : Ast) (f : σ → ASTStatement → σ) (s : σ) : σ :=
  a.statements.foldl f s

/-- The `ASTPrinter` struct from src/ast/mod.rs, extended with the list
of lines it has printed (each `println!` appends one entry; the entry
keeps the `indent` counter in force at the time together with the text,
so that rendering to columns stays a separate step, `renderLine`). -/
structure ASTPrinter where
  indent : Nat
  output : List (Nat × String)
deriving DecidableEq, Repr

/-- `LEVEL_INDENT` from src/ast/mod.rs. -/
def LEVEL_INDENT : Nat := 2

/-- `ASTPrinter::print_with_indent` from src/ast/mod.rs: records one
printed line at the current indent counter. -/
def ASTPrinter.print_with_indent (p : ASTPrinter) (text : String) : ASTPrinter :=
  { p with output := p.output ++ [(p.indent, text)] }

/-- Rendering of one recorded line to its actual text:
`print_with_indent` executes `print!("  ")` (two spaces) once per unit of
the `indent` counter before the text, so a line recorded at counter `i`
carries `2 * i` leading space columns. -/
def renderLine (line : Nat × String) : String :=
  String.mk (List.replicate (2 * line.1) ' ') ++ line.2

/-- `ASTVisitor::visit_number` of the printer in src/ast/mod.rs. -/
def ASTPrinter.visit_number (p : ASTPrinter) (number : Int) : ASTPrinter :=
  p.print_with_indent ("Number: " ++ toString number)

mutual

/-- `ASTVisitor::visit_expression` of `impl ASTVisitor for ASTPrinter` in
src/ast/mod.rs. -/
def ASTPrinter.visit_expression (p : ASTPrinter) (expression : ASTExpression) : ASTPrinter :=
  let p := p.print_with_indent "Expression:"
  let p := { p with indent := p.indent + LEVEL_INDENT }
  let p := p.do_visit_expression expression
  { p with indent := p.indent - LEVEL_INDENT }
termination_by (sizeOf expression, 2)

/-- Default method `ASTVisitor::do_visit_expression` from
src/ast/mod.rs: dispatch on the expression kind. -/
def ASTPrinter.do_visit_expression (p : ASTPrinter) (expression : ASTExpression) : ASTPrinter :=
  match expression with
  | .Number number => p.visit_number number
  | .Binary left op right => p.visit_binary_expression left op right
  | .Parenthesized inner => p.visit_parenthesized_expression inner
termination_by (sizeOf expression, 1)

/-- `ASTVisitor::visit_binary_expression` of the printer in
src/ast/mod.rs. -/
def ASTPrinter.visit_binary_expression (p : ASTPrinter) (left : ASTExpression)
    (op : ASTBinaryOperator) (right : ASTExpression) : ASTPrinter :=
  let p := p.print_with_indent "Binary Expression:"
  let p := { p with indent := p.indent + LEVEL_INDENT }
  let p := p.print_with_indent ("Operator: " ++ op.kind.debugText)
  let p := p.visit_expression left
  let p := p.visit_expression right
  { p with indent := p.indent - LEVEL_INDENT }
termination_by (1 + sizeOf left + sizeOf op + sizeOf right, 0)

/-- `ASTVisitor::visit_parenthesized_expression` of the printer in
src/ast/mod.rs. -/
def ASTPrinter.visit_parenthesized_expression (p : ASTPrinter)
    (inner : ASTExpression) : ASTPrinter :=
  let p := p.print_with_indent "Parenthesized Expression:"
  let p := { p with indent := p.indent + LEVEL_INDENT }
  let p := p.visit_expression inner
  { p with indent := p.indent - LEVEL_INDENT }
termination_by (1 + sizeOf inner, 0)

end

/-- Default method `ASTVisitor::do_visit_statement` from src/ast/mod.rs:
dispatch on the statement kind. -/
def ASTPrinter.do_visit_statement (p : ASTPrinter) (statement : ASTStatement) : ASTPrinter :=
  match statement.kind with
  | .Expression expr => p.visit_expression expr

/-- `ASTVisitor::visit_statement` of `impl ASTVisitor for ASTPrinter` in
src/ast/mod.rs. -/
def ASTPrinter.visit_statement (p : ASTPrinter) (statement : ASTStatement) : ASTPrinter :=
  let p := p.print_with_indent "Statement:"
  let p := { p with indent := p.indent + LEVEL_INDENT }
  let p := p.do_visit_statement statement
  { p with indent := p.indent - LEVEL_INDENT }

/-- `Ast::visualize` from src/ast/mod.rs: runs a fresh printer (indent 0,
nothing printed yet) over all statements. -/
def Ast.visualize (a : Ast) : ASTPrinter :=
  a.visit ASTPrinter.visit_statement ⟨0, []⟩

/-- Numeric value of a scanned digit run (most significant digit first),
as parsed by the lexer for a Number token. -/
def digitsToNat (run : List Char) : Nat :=
  run.foldl (fun acc c => acc * 10 + (c.toNat - '0'.toNat)) 0

/-- Modelled from the spec: character classification of the lexer module
(spec 4.1), which is not under src/. One token is produced per step: a
maximal digit run becomes Number, a maximal whitespace run becomes
Whitespace, each of the six operator and parenthesis characters becomes
its single-character token, and any other character becomes Bad (the
cursor still advances by one). Once the input is exhausted a single End
sentinel with an empty literal is emitted and the token stream stops.
The character cursor is `pos`; the remaining input is a character list.
Each step consumes at least one character, so the scan is bounded by the
input length; the bound is made explicit as fuel (always sufficient as
supplied by `lexAll`, which passes one more than the character count). -/
def tokenize : Nat → List Char → Nat → List Token
  | 0, _, _ => []
  | _ + 1, [], pos => [⟨.End, ⟨pos, []⟩⟩]
  | fuel + 1, c :: rest, pos =>
    if c.isDigit then
      let run := c :: rest.takeWhile Char.isDigit
      ⟨.Number (Int.ofNat (digitsToNat run)), ⟨pos, run⟩⟩ ::
        tokenize fuel (rest.dropWhile Char.isDigit) (pos + run.length)
    else if c.isWhitespace then
      let run := c :: rest.takeWhile Char.isWhitespace
      ⟨.Whitespace, ⟨pos, run⟩⟩ ::
        tokenize fuel (rest.dropWhile Char.isWhitespace) (pos + run.length)
    else if c = '+' then ⟨.Plus, ⟨pos, [c]⟩⟩ :: tokenize fuel rest (pos + 1)
    else if c = '-' then ⟨.Minus, ⟨pos, [c]⟩⟩ :: tokenize fuel rest (pos + 1)
    else if c = '*' then ⟨.Star, ⟨pos, [c]⟩⟩ :: tokenize fuel rest (pos + 1)
    else if c = '/' then ⟨.Slash, ⟨pos, [c]⟩⟩ :: tokenize fuel rest (pos + 1)
    else if c = '(' then ⟨.LeftParen, ⟨pos, [c]⟩⟩ :: tokenize fuel rest (pos + 1)
    else if c = ')' then ⟨.RightParen, ⟨pos, [c]⟩⟩ :: tokenize fuel rest (pos + 1)
    else ⟨.Bad, ⟨pos, [c]⟩⟩ :: tokenize fuel rest (pos + 1)

/-- Modelled from the spec: the token list collected by main.rs's lexing
loop, which calls `Lexer::next_token` until it returns None and pushes
every token (End included) into a vector. -/
def lexAll (input : String) : List Token :=
  tokenize (input.data.length + 1) input.data 0

/-- Modelled from the spec: the parser (spec 4.3) filters Whitespace and
Bad tokens so they are invisible to the grammar; the parser module is not
under src/. -/
def filterTokens (tokens : List Token) : List Token :=
  tokens.filter fun t =>
    !(t.kind == TokenKind.Whitespace || t.kind == TokenKind.Bad)

/-- Modelled from the spec: the parser's current token. The remaining
token list plays the role of the cursor; looking past the end clamps to
the End sentinel (spec 4.3's `peek` clamps to the last token, which the
lexer guarantees is End). -/
def current : List Token → Token
  | [] => ⟨.End, ⟨0, []⟩⟩
  | t :: _ => t

/-- Advance the parser cursor by one token. -/
def consume : List Token → List Token
  | [] => []
  | _ :: ts => ts

/-- Modelled from the spec: mapping of an operator token to the binary
operator it denotes, keeping the originating token (spec 4.3 step 2
recognises the current token as a binary operator). -/
def parseBinaryOperator (t : Token) : Option ASTBinaryOperator :=
  match t.kind with
  | .Plus => some ⟨.Plus, t⟩
  | .Minus => some ⟨.Minus, t⟩
  | .Star => some ⟨.Multiply, t⟩
  | .Slash => some ⟨.Divide, t⟩
  | _ => none

mutual

/-- Modelled from the spec: precedence-climbing expression parsing
(spec 4.3 step 2): after a primary has been parsed, loop while the
current token is a binary operator whose precedence is strictly greater
than the minimum threshold; consume it, parse the right-hand side with
the operator's precedence as the new minimum, and fold into a Binary
node on the left. Recursion is fueled; every wrapper supplies enough
fuel for its token list. -/
def parseBinaryExpr : Nat → Nat → List Token → Option (ASTExpression × List Token)
  | 0, _, _ => none
  | fuel + 1, minPrec, ts =>
    match parsePrimaryExpr fuel ts with
    | none => none
    | some (left, ts) => parseBinaryLoop fuel minPrec left ts

/-- Modelled from the spec: the continuation loop of precedence climbing
(one iteration per operator folded into the left operand). -/
def parseBinaryLoop : Nat → Nat → ASTExpression → List Token →
    Option (ASTExpression × List Token)
  | 0, _, _, _ => none
  | fuel + 1, minPrec, left, ts =>
    match parseBinaryOperator (current ts) with
    | some op =>
      if op.precedence > minPrec then
        match parseBinaryExpr fuel op.precedence (consume ts) with
        | none => none
        | some (right, ts) =>
          parseBinaryLoop fuel minPrec (.Binary left op right) ts
      else some (left, ts)
    | none => some (left, ts)

/-- Modelled from the spec: primary expression parsing (spec 4.3): a
Number token yields a Number expression; a Minus token is unary negation,
rewritten into a Binary(Minus) node with a literal-zero left operand that
consumes only the immediately following primary; a LeftParen token parses
a full expression (minimum precedence reset to 0) and must consume a
matching RightParen, yielding a Parenthesized node; any other token is a
parse failure. -/
def parsePrimaryExpr : Nat → List Token → Option (ASTExpression × List Token)
  | 0, _ => none
  | fuel + 1, ts =>
    match current ts with
    | ⟨.Number n, _⟩ => some (.Number n, consume ts)
    | t@(⟨.Minus, _⟩) =>
      match parsePrimaryExpr fuel (consume ts) with
      | none => none
      | some (inner, ts) =>
        some (.Binary (.Number 0) ⟨.Minus, t⟩ inner, ts)
    | ⟨.LeftParen, _⟩ =>
      match parseBinaryExpr fuel 0 (consume ts) with
      | none => none
      | some (inner, ts) =>
        match (current ts).kind with
        | .RightParen => some (.Parenthesized inner, consume ts)
        | _ => none
    | _ => none

end

/-- Modelled from the spec: `Parser::next_statement` (spec 4.3) returns
None once only the End token remains, and otherwise parses exactly one
expression statement (starting threshold 0), failing when the expression
cannot be parsed. -/
def next_statement (fuel : Nat) (ts : List Token) : Option (ASTStatement × List Token) :=
  if (current ts).kind == TokenKind.End then none
  else
    match parseBinaryExpr fuel 0 ts with
    | none => none
    | some (expr, ts) => some (ASTStatement.expression expr, ts)

/-- Modelled from the spec: main.rs's parsing loop, which keeps calling
`next_statement` and adding the produced statements to the Ast until the
parser signals no more statements. -/
def parseStatementsFueled : Nat → List Token → List ASTStatement
  | 0, _ => []
  | fuel + 1, ts =>
    match next_statement (fuel + 1) ts with
    | none => []
    | some (stmt, ts) => stmt :: parseStatementsFueled fuel ts

/-- Modelled from the spec: the full parse of a token sequence into the
statement list, with fuel ample for the token count (each parsing step
consumes a token or moves to a strictly later recursion level). -/
def parseProgram (tokens : List Token) : List ASTStatement :=
  let ts := filterTokens tokens
  parseStatementsFueled (3 * ts.length + 3) ts

/-- Modelled from the spec: the `ASTEvaluator` struct (spec 4.4), a
visitor whose only state is the most recently computed value, initially
absent. main.rs reads this field as `eval.last_value`. -/
structure ASTEvaluator where
  last_value : Option Int
deriving DecidableEq, Repr

/-- `ASTEvaluator::new` as used by main.rs: no value computed yet. -/
def ASTEvaluator.new : ASTEvaluator := ⟨none⟩

/-- Modelled from the spec: the evaluator's expression visit (spec 4.4).
Visiting a Number stores its literal value in `last_value`; visiting a
Binary node evaluates the left child, captures the shared `last_value`
slot into a local, evaluates the right child, captures it again, and
combines with the operator (Plus add, Minus subtract, Multiply multiply,
Divide truncating division); visiting a Parenthesized node evaluates the
inner expression and leaves its result as the last value. Division by
zero is fatal (the reference behavior traps): the trap, like the panic of
unwrapping an absent `last_value`, is modelled as `none`. -/
def ASTEvaluator.visit_expression (ev : ASTEvaluator) :
    ASTExpression → Option ASTEvaluator
  | .Number n => some { last_value := some n }
  | .Binary l op r => do
    let ev1 ← ev.visit_expression l
    let leftValue ← ev1.last_value
    let ev2 ← ev1.visit_expression r
    let rightValue ← ev2.last_value
    match op.kind with
    | .Plus => some { last_value := some (leftValue + rightValue) }
    | .Minus => some { last_value := some (leftValue - rightValue) }
    | .Multiply => some { last_value := some (leftValue * rightValue) }
    | .Divide =>
      if rightValue = 0 then none
      else some { last_value := some (leftValue.tdiv rightValue) }
  | .Parenthesized inner => ev.visit_expression inner

/-- Modelled from the spec: the evaluator's statement visit dispatches on
the statement kind (only Expression exists) and evaluates its
expression. -/
def ASTEvaluator.visit_statement (ev : ASTEvaluator) (s : ASTStatement) :
    Option ASTEvaluator :=
  match s.kind with
  | .Expression expr => ev.visit_expression expr

/-- One step of `Ast::visit` with the evaluator as the visitor: a trap in
an earlier statement aborts the whole run. -/
def evalStep (ev : Option ASTEvaluator) (s : ASTStatement) : Option ASTEvaluator :=
  ev.bind fun e => e.visit_statement s

/-- The input string hard-coded in main.rs. -/
def mainInput : String := "(7 - 8) * -1"

/-- Model of `main` from src/main.rs on an arbitrary input string: lex
everything, parse the statements into an Ast, run the evaluator over it
with `Ast::visit`, and print `Result: v` for the unwrapped `last_value`.
The returned value is `some v` exactly when a Result line with value `v`
is printed; `none` models a panic (a trap during evaluation or the unwrap
of an absent `last_value`), in which case no Result line appears. -/
def mainResult (input : String) : Option Int :=
  let tokens := lexAll input
  let a := (parseProgram tokens).foldl Ast.add_statement Ast.new
  let fin := a.visit evalStep (some ASTEvaluator.new)
  fin.bind fun ev => ev.last_value

/-- Specification-side denotation of an expression, written as the claims
describe evaluation: a Number yields its literal value, a Binary node
evaluates left, then right, then combines (Divide failing on a zero
divisor), and a Parenthesized node yields its inner value unchanged.
`none` is the division-by-zero fault. The stateful evaluator is proved to
refine this function. -/
def denoteExpr : ASTExpression → Option Int
  | .Number n => some n
  | .Binary l op r => do
    let a ← denoteExpr l
    let b ← denoteExpr r
    match op.kind with
    | .Plus => some (a + b)
    | .Minus => some (a - b)
    | .Multiply => some (a * b)
    | .Divide => if b = 0 then none else some (a.tdiv b)
  | .Parenthesized inner => denoteExpr inner

/-- Syntactic-semantic characterisation of when evaluation meets a
division by zero: some division node's right operand evaluates to zero
(or a child already does so). -/
def divByZeroOccurs : ASTExpression → Bool
  | .Number _ => false
  | .Binary l op r =>
    divByZeroOccurs l || divByZeroOccurs r ||
      (op.kind == ASTBinaryOperatorKind.Divide && denoteExpr r == some 0)
  | .Parenthesized inner => divByZeroOccurs inner

/-- Specification-side rendering of the printer output with the indent
counter as data: `kindLines` renders the kind-specific lines of one
expression, each child rendered one `LEVEL_INDENT` deeper behind its own
`Expression:` header, which in turn sits one `LEVEL_INDENT` below the
node's own lines; `exprLines` renders a whole expression (header plus
kind-specific lines). The stateful printer is proved to produce exactly
these lines. -/
def kindLines (i : Nat) : ASTExpression → List (Nat × String)
  | .Number n => [(i, "Number: " ++ toString n)]
  | .Binary l op r =>
    (i, "Binary Expression:") ::
      (i + LEVEL_INDENT, "Operator: " ++ op.kind.debugText) ::
        (((i + LEVEL_INDENT, "Expression:") ::
            kindLines (i + LEVEL_INDENT + LEVEL_INDENT) l) ++
          ((i + LEVEL_INDENT, "Expression:") ::
            kindLines (i + LEVEL_INDENT + LEVEL_INDENT) r))
  | .Parenthesized inner =>
    (i, "Parenthesized Expression:") ::
      (i + LEVEL_INDENT, "Expression:") ::
        kindLines (i + LEVEL_INDENT + LEVEL_INDENT) inner

/-- Specification-side rendering of one expression; see `kindLines`. -/
def exprLines (i : Nat) (e : ASTExpression) : List (Nat × String) :=
  (i, "Expression:") :: kindLines (i + LEVEL_INDENT) e

/-- Specification-side rendering of one statement: its `Statement:`
header, then its expression one level deeper. -/
def stmtLines (i : Nat) (s : ASTStatement) : List (Nat × String) :=
  match s.kind with
  | .Expression e => (i, "Statement:") :: exprLines (i + LEVEL_INDENT) e

/-- All subexpressions of an expression (the node itself included). -/
def subexpressions : ASTExpression → List ASTExpression
  | .Number n => [.Number n]
  | .Binary l op r =>
    .Binary l op r :: (subexpressions l ++ subexpressions r)
  | .Parenthesized inner => .Parenthesized inner :: subexpressions inner

/-- Kind-specific header text the printer gives a node: a Number node's
line carries its literal value, a Binary node's line announces the binary
expression (its Operator line follows), a Parenthesized node's line
announces the parenthesized expression. -/
def headerText : ASTExpression → String
  | .Number n => "Number: " ++ toString n
  | .Binary _ _ _ => "Binary Expression:"
  | .Parenthesized _ => "Parenthesized Expression:"

/-- Number of leading space columns of a rendered line. -/
def countLeadingSpaces (s : String) : Nat :=
  (s.data.takeWhile fun c => c = ' ').length

/-- Number token as the lexer would emit it, with an irrelevant span, for
stating parser properties directly on token sequences. -/
def numToken (n : Int) : Token := ⟨.Number n, ⟨0, []⟩⟩

/-- Operator token corresponding to a binary operator kind. -/
def opToken : ASTBinaryOperatorKind → Token
  | .Plus => ⟨.Plus, ⟨0, ['+']⟩⟩
  | .Minus => ⟨.Minus, ⟨0, ['-']⟩⟩
  | .Multiply => ⟨.Star, ⟨0, ['*']⟩⟩
  | .Divide => ⟨.Slash, ⟨0, ['/']⟩⟩

/-- The End sentinel token with an irrelevant span. -/
def endToken : Token := ⟨.End, ⟨0, []⟩⟩

/-- Folding statements one by one through `add_statement` accumulates
them behind the accumulator, in order. -/
theorem foldl_add_statement (l : List ASTStatement) :
    ∀ a : Ast, (l.foldl Ast.add_statement a).statements = a.statements ++ l := by
  induction l with
  | nil => intro a; simp
  | cons s rest ih =>
    intro a
    simp [List.foldl_cons, ih, Ast.add_statement]

/-- Folding the recording visitor appends the visited statements, in
visiting order, behind the accumulator. -/
theorem foldl_record (l : List ASTStatement) :
    ∀ acc : List ASTStatement,
      l.foldl (fun acc s => acc ++ [s]) acc = acc ++ l := by
  induction l with
  | nil => intro acc; simp
  | cons s rest ih =>
    intro acc
    simp [List.foldl_cons, ih]

/-- The stateful printer is the pure line renderer: dispatching
`do_visit_expression` from any printer state leaves the indent counter
unchanged and appends exactly `kindLines` at the current counter, and
`visit_expression` likewise appends exactly `exprLines`. -/
theorem printer_pure (e : ASTExpression) :
    (∀ p : ASTPrinter,
        p.do_visit_expression e = ⟨p.indent, p.output ++ kindLines p.indent e⟩) ∧
    (∀ p : ASTPrinter,
        p.visit_expression e = ⟨p.indent, p.output ++ exprLines p.indent e⟩) := by
  induction e with
  | Number n =>
    constructor <;> intro p <;>
      simp [ASTPrinter.visit_expression, ASTPrinter.do_visit_expression,
        ASTPrinter.visit_number, ASTPrinter.print_with_indent,
        kindLines, exprLines]
  | Binary l op r ihl ihr =>
    have hd : ∀ p : ASTPrinter,
        p.do_visit_expression (.Binary l op r) =
          ⟨p.indent, p.output ++ kindLines p.indent (.Binary l op r)⟩ := by
      intro p
      simp [ASTPrinter.do_visit_expression, ASTPrinter.visit_binary_expression,
        ASTPrinter.print_with_indent, ihl.2, ihr.2, kindLines, exprLines]
    refine ⟨hd, ?_⟩
    intro p
    simp [ASTPrinter.visit_expression, hd, ASTPrinter.print_with_indent, exprLines]
  | Parenthesized inner ih =>
    have hd : ∀ p : ASTPrinter,
        p.do_visit_expression (.Parenthesized inner) =
          ⟨p.indent, p.output ++ kindLines p.indent (.Parenthesized inner)⟩ := by
      intro p
      simp [ASTPrinter.do_visit_expression,
        ASTPrinter.visit_parenthesized_expression,
        ASTPrinter.print_with_indent, ih.2, kindLines, exprLines]
    refine ⟨hd, ?_⟩
    intro p
    simp [ASTPrinter.visit_expression, hd, ASTPrinter.print_with_indent, exprLines]

/-- Statement version of `printer_pure`. -/
theorem printer_pure_stmt (s : ASTStatement) (p : ASTPrinter) :
    p.visit_statement s = ⟨p.indent, p.output ++ stmtLines p.indent s⟩ := by
  obtain ⟨k⟩ := s
  obtain ⟨e⟩ := k
  simp [ASTPrinter.visit_statement, ASTPrinter.do_visit_statement,
    ASTPrinter.print_with_indent, (printer_pure e).2, stmtLines]

/-- The stateful evaluator refines the pure denotation: from any starting
state, visiting an expression yields the state holding its denotation as
the last value, and traps exactly when the denotation faults. -/
theorem evaluator_pure (e : ASTExpression) :
    ∀ ev : ASTEvaluator,
      ev.visit_expression e = (denoteExpr e).map fun v => ⟨some v⟩ := by
  induction e with
  | Number n => intro ev; simp [ASTEvaluator.visit_expression, denoteExpr]
  | Binary l op r ihl ihr =>
    intro ev
    simp only [ASTEvaluator.visit_expression, denoteExpr, ihl, ihr]
    cases denoteExpr l with
    | none => simp
    | some a =>
      cases denoteExpr r with
      | none => simp
      | some b =>
        by_cases hb : b = 0 <;>
          cases op.kind <;> simp [Option.bind, hb]
  | Parenthesized inner ih =>
    intro ev
    simp [ASTEvaluator.visit_expression, denoteExpr, ih]

/-- Evaluation faults exactly when a division by zero occurs in it. -/
theorem denote_none_iff_divByZero (e : ASTExpression) :
    denoteExpr e = none ↔ divByZeroOccurs e = true := by
  induction e with
  | Number n => simp [denoteExpr, divByZeroOccurs]
  | Binary l op r ihl ihr =>
    simp only [denoteExpr, divByZeroOccurs]
    cases hl : denoteExpr l with
    | none =>
      have hdl : divByZeroOccurs l = true := ihl.mp hl
      simp [hdl]
    | some a =>
      cases hr : denoteExpr r with
      | none =>
        have hdr : divByZeroOccurs r = true := ihr.mp hr
        simp [hdr]
      | some b =>
        have hl' : divByZeroOccurs l = false := by
          rcases h : divByZeroOccurs l with _ | _
          · rfl
          · exact absurd (ihl.mpr h) (by simp [hl])
        have hr' : divByZeroOccurs r = false := by
          rcases h : divByZeroOccurs r with _ | _
          · rfl
          · exact absurd (ihr.mpr h) (by simp [hr])
        by_cases hb : b = 0 <;>
          cases op.kind <;> simp [hl', hr', hb]
  | Parenthesized inner ih => simpa [denoteExpr, divByZeroOccurs] using ih

/-- Rendering a recorded line yields exactly two space columns per unit
of the indent counter in front of the text. -/
theorem countLeadingSpaces_renderLine (i : Nat) (text : String) :
    countLeadingSpaces (renderLine (i, text)) =
      2 * i + countLeadingSpaces text := by
  have h : ∀ (n : Nat) (l : List Char),
      (List.replicate n ' ' ++ l).takeWhile (fun c => c = ' ') =
        List.replicate n ' ' ++ l.takeWhile (fun c => c = ' ') := by
    intro n
    induction n with
    | zero => intro l; simp
    | succ k ih => intro l; simp [List.replicate_succ, List.takeWhile_cons, ih]
  simp [countLeadingSpaces, renderLine, String.data_append, h]

/-- C1, corrected. The claim asserts an indentation width of exactly 2
columns per nesting level; in the code each nesting level adds
`LEVEL_INDENT = 2` to the indent counter and `print_with_indent` renders
two space columns per counter unit, so the rendered width is 4 columns
per nesting level. On the single-statement AST `Statement(Number 1)`,
the `Expression:` line sits at nesting level one but carries 4 leading
columns, not 2. -/
theorem astPrinter_indent_width_counterexample :
    countLeadingSpaces (renderLine
      ((Ast.visualize ⟨[ASTStatement.expression (.Number 1)]⟩).output.getD 1 (0, ""))) = 4 ∧
    countLeadingSpaces (renderLine
      ((Ast.visualize ⟨[ASTStatement.expression (.Number 1)]⟩).output.getD 1 (0, ""))) ≠ 2 := by
  have h : Ast.visualize ⟨[ASTStatement.expression (.Number 1)]⟩ =
      ⟨0, stmtLines 0 (ASTStatement.expression (.Number 1))⟩ := by
    simp [Ast.visualize, Ast.visit, printer_pure_stmt]
  rw [h]
  constructor <;> decide

/-- C1, amended: the printer renders the tree with an indentation width
of exactly 4 columns per nesting level: the indent counter is increased
by `LEVEL_INDENT = 2` before visiting a child node (statement's
expression, binary expression's operands, parenthesized expression's
inner expression) and restored to its previous value immediately after
that child has been printed, and each counter unit is rendered as two
space columns. Formally: `LEVEL_INDENT` is 2; visiting a statement or an
expression from any printer state returns with the indent counter it
started from, appending exactly the pure rendering in which every child
is laid out at the parent's counter plus `LEVEL_INDENT`; and a line
recorded at counter `i` is rendered with `2 * i` leading columns. -/
theorem astPrinter_indent_width :
    LEVEL_INDENT = 2 ∧
    (∀ (p : ASTPrinter) (s : ASTStatement),
        p.visit_statement s = ⟨p.indent, p.output ++ stmtLines p.indent s⟩) ∧
    (∀ (p : ASTPrinter) (e : ASTExpression),
        p.visit_expression e = ⟨p.indent, p.output ++ exprLines p.indent e⟩) ∧
    (∀ (i : Nat) (text : String),
        countLeadingSpaces (renderLine (i, text)) =
          2 * i + countLeadingSpaces text) := by
  refine ⟨rfl, ?_, ?_, ?_⟩
  · intro p s; exact printer_pure_stmt s p
  · intro p e; exact (printer_pure e).2 p
  · intro i text; exact countLeadingSpaces_renderLine i text

/-- Concatenating the literals of all tokens the scan emits, except the
End sentinel, restores the scanned characters, provided the fuel exceeds
the character count (each step consumes at least one character). -/
theorem tokenize_concat :
    ∀ (fuel : Nat) (l : List Char) (pos : Nat), l.length < fuel →
      (((tokenize fuel l pos).filter fun t => !(t.kind == TokenKind.End)).map
          fun t => t.span.literal).flatten = l := by
  intro fuel
  induction fuel with
  | zero => intro l pos h; exact absurd h (Nat.not_lt_zero _)
  | succ fuel ih =>
    intro l pos h
    match l with
    | [] => simp [tokenize]
    | c :: rest =>
      have hrest : rest.length < fuel := Nat.lt_of_succ_lt_succ (by simpa using h)
      by_cases h1 : c.isDigit
      · have hlen : (rest.dropWhile Char.isDigit).length < fuel :=
          Nat.lt_of_le_of_lt (List.dropWhile_sublist Char.isDigit).length_le hrest
        simp [tokenize, h1, ih _ _ hlen, List.takeWhile_append_dropWhile]
      · by_cases h2 : c.isWhitespace
        · have hlen : (rest.dropWhile Char.isWhitespace).length < fuel :=
            Nat.lt_of_le_of_lt (List.dropWhile_sublist Char.isWhitespace).length_le hrest
          simp [tokenize, h1, h2, ih _ _ hlen, List.takeWhile_append_dropWhile]
        · by_cases h3 : c = '+'
          · simp [tokenize, h1, h2, h3, ih _ _ hrest]
          · by_cases h4 : c = '-'
            · simp [tokenize, h1, h2, h3, h4, ih _ _ hrest]
            · by_cases h5 : c = '*'
              · simp [tokenize, h1, h2, h3, h4, h5, ih _ _ hrest]
              · by_cases h6 : c = '/'
                · simp [tokenize, h1, h2, h3, h4, h5, h6, ih _ _ hrest]
                · by_cases h7 : c = '('
                  · simp [tokenize, h1, h2, h3, h4, h5, h6, h7, ih _ _ hrest]
                  · by_cases h8 : c = ')'
                    · simp [tokenize, h1, h2, h3, h4, h5, h6, h7, h8, ih _ _ hrest]
                    · simp [tokenize, h1, h2, h3, h4, h5, h6, h7, h8, ih _ _ hrest]

/-- C7: for every input string, concatenating the literal source text of
all tokens the lexer emits, in emission order and excluding only the End
sentinel, reconstructs the input exactly: no character is lost, including
whitespace and unrecognized characters tagged as Bad tokens. -/
theorem lexer_lossless (input : String) :
    (((lexAll input).filter fun t => !(t.kind == TokenKind.End)).map
        fun t => t.span.literal).flatten = input.data :=
  tokenize_concat _ _ _ (Nat.lt_succ_self _)

/-- C2: the precedence function returns 1 for Plus and Minus and 2 for
Multiply and Divide, and an operator with the higher precedence number
binds tighter: whenever the second of two operators has strictly higher
precedence, a number-operator-number-operator-number sequence parses with
the second operator nested under the first. -/
theorem operator_precedence :
    (∀ op : ASTBinaryOperator,
        (op.kind = .Plus → op.precedence = 1) ∧
        (op.kind = .Minus → op.precedence = 1) ∧
        (op.kind = .Multiply → op.precedence = 2) ∧
        (op.kind = .Divide → op.precedence = 2)) ∧
    (∀ (k1 k2 : ASTBinaryOperatorKind) (n1 n2 n3 : Int),
        (⟨k2, opToken k2⟩ : ASTBinaryOperator).precedence >
            (⟨k1, opToken k1⟩ : ASTBinaryOperator).precedence →
          parseBinaryExpr 9 0
              [numToken n1, opToken k1, numToken n2, opToken k2, numToken n3,
                endToken] =
            some (.Binary (.Number n1) ⟨k1, opToken k1⟩
                (.Binary (.Number n2) ⟨k2, opToken k2⟩ (.Number n3)),
              [endToken])) := by
  constructor
  · intro op
    refine ⟨?_, ?_, ?_, ?_⟩ <;> (intro h; simp [ASTBinaryOperator.precedence, h])
  · intro k1 k2 n1 n2 n3 hp
    cases k1 <;> cases k2 <;> first
      | exact absurd hp (by decide)
      | rfl

/-- Witness for C2 at Plus and Multiply over 2, 3, 4: the multiplication
binds tighter, giving the nested parse 2 + (3 * 4). -/
theorem operator_precedence_witness :
    parseBinaryExpr 9 0
        [numToken 2, opToken .Plus, numToken 3, opToken .Multiply, numToken 4,
          endToken] =
      some (.Binary (.Number 2) ⟨.Plus, opToken .Plus⟩
          (.Binary (.Number 3) ⟨.Multiply, opToken .Multiply⟩ (.Number 4)),
        [endToken]) :=
  operator_precedence.2 .Plus .Multiply 2 3 4 (by decide)

/-- C3: statements are kept and processed in insertion order:
`add_statement` appends behind all previously added statements, and
`Ast::visit` hands the statements to the visitor in exactly that order
(shown by a visitor that records every statement it is given: the
recorded list is the stored list itself). -/
theorem ast_insertion_order :
    (∀ (a : Ast) (s : ASTStatement),
        (a.add_statement s).statements = a.statements ++ [s]) ∧
    (∀ a : Ast, a.visit (fun acc s => acc ++ [s]) [] = a.statements) := by
  constructor
  · intro a s; rfl
  · intro a; simpa [Ast.visit] using foldl_record a.statements []

/-- Every subexpression's kind-specific header line occurs among the
lines of the pure rendering. -/
theorem headerText_mem_kindLines (e : ASTExpression) :
    ∀ (i : Nat) (e' : ASTExpression), e' ∈ subexpressions e →
      headerText e' ∈ (kindLines i e).map Prod.snd := by
  induction e with
  | Number n =>
    intro i e' h
    simp only [subexpressions, List.mem_singleton] at h
    subst h
    simp [kindLines, headerText]
  | Binary l op r ihl ihr =>
    intro i e' h
    simp only [subexpressions, List.mem_cons, List.mem_append] at h
    rcases h with h | h | h
    · subst h; simp [kindLines, headerText]
    · have hm := ihl (i + LEVEL_INDENT + LEVEL_INDENT) e' h
      simp only [kindLines, List.map_cons, List.map_append, List.mem_cons,
        List.mem_append] at hm ⊢
      tauto
    · have hm := ihr (i + LEVEL_INDENT + LEVEL_INDENT) e' h
      simp only [kindLines, List.map_cons, List.map_append, List.mem_cons,
        List.mem_append] at hm ⊢
      tauto
  | Parenthesized inner ih =>
    intro i e' h
    simp only [subexpressions, List.mem_cons] at h
    rcases h with h | h
    · subst h; simp [kindLines, headerText]
    · have hm := ih (i + LEVEL_INDENT + LEVEL_INDENT) e' h
      simp only [kindLines, List.map_cons, List.mem_cons] at hm ⊢
      tauto

/-- C4: the printer renders every expression node kind with its immediate
children, recursively: starting from any printer state, the printed lines
contain the kind-specific header of every subexpression (a Number node's
line carries its literal value, a Binary node is announced and followed
by both children, a Parenthesized node by its inner expression), and for
a Binary node also its operator line; no node kind is left unrendered. -/
theorem printer_renders_all_nodes :
    (∀ (p : ASTPrinter) (e e' : ASTExpression), e' ∈ subexpressions e →
        headerText e' ∈ (p.visit_expression e).output.map Prod.snd) ∧
    (∀ (p : ASTPrinter) (l : ASTExpression) (op : ASTBinaryOperator)
        (r : ASTExpression),
        ("Operator: " ++ op.kind.debugText) ∈
          (p.visit_expression (.Binary l op r)).output.map Prod.snd) := by
  constructor
  · intro p e e' h
    rw [(printer_pure e).2 p]
    have hm := headerText_mem_kindLines e (p.indent + LEVEL_INDENT) e' h
    simp only [exprLines, List.map_append, List.map_cons, List.mem_append,
      List.mem_cons]
    tauto
  · intro p l op r
    rw [(printer_pure (.Binary l op r)).2 p]
    simp [exprLines, kindLines]

/-- Witness for C4: printing the expression (7) from a fresh printer
renders the inner Number node's line. -/
theorem printer_renders_all_nodes_witness :
    headerText (.Number 7) ∈
      ((⟨0, []⟩ : ASTPrinter).visit_expression
          (.Parenthesized (.Number 7))).output.map Prod.snd :=
  printer_renders_all_nodes.1 ⟨0, []⟩ (.Parenthesized (.Number 7)) (.Number 7)
    (by decide)

/-- C5: the evaluator computes the value of every expression over signed
integers as the pure denotation describes: a Number yields its literal
value; a Binary node evaluates its left child, then its right child, and
combines them with Plus as addition, Minus as subtraction, Multiply as
multiplication and Divide as truncating integer division; a Parenthesized
node yields its inner value unchanged. The stateful evaluator visitor is
proved equal to the pure denotation from every starting state, and the
denotation satisfies the claimed equations. -/
theorem evaluator_semantics :
    (∀ (ev : ASTEvaluator) (e : ASTExpression),
        ev.visit_expression e = (denoteExpr e).map fun v => ⟨some v⟩) ∧
    (∀ n : Int, denoteExpr (.Number n) = some n) ∧
    (∀ (l r : ASTExpression) (op : ASTBinaryOperator) (a b : Int),
        denoteExpr l = some a → denoteExpr r = some b →
          denoteExpr (.Binary l op r) =
            match op.kind with
            | .Plus => some (a + b)
            | .Minus => some (a - b)
            | .Multiply => some (a * b)
            | .Divide => if b = 0 then none else some (a.tdiv b)) ∧
    (∀ inner : ASTExpression,
        denoteExpr (.Parenthesized inner) = denoteExpr inner) := by
  refine ⟨fun ev e => evaluator_pure e ev, fun n => rfl, ?_, fun inner => rfl⟩
  intro l r op a b hl hr
  cases op with
  | mk kind token => cases kind <;> simp [denoteExpr, hl, hr]

/-- Witness for C5: dividing 7 by 2 truncates to 3. -/
theorem evaluator_semantics_witness :
    denoteExpr (.Binary (.Number 7) ⟨.Divide, opToken .Divide⟩ (.Number 2)) =
      some 3 := by
  have h := evaluator_semantics.2.2.1 (.Number 7) (.Number 2)
    ⟨.Divide, opToken .Divide⟩ 7 2 rfl rfl
  rw [h]
  decide

/-- C6: division by zero during evaluation is always detected and halts
evaluation (the trap), it never silently produces a numeric result, and
it is the only condition that halts evaluation of an otherwise-valid AST:
from any state, evaluating an expression traps exactly when a division by
zero occurs in it. The input `1 / 0` parses to a statement whose
evaluation traps, so main prints no Result line for it. -/
theorem division_by_zero_detected :
    (∀ (ev : ASTEvaluator) (e : ASTExpression),
        ev.visit_expression e = none ↔ divByZeroOccurs e = true) ∧
    parseProgram (lexAll "1 / 0") ≠ [] ∧
    mainResult "1 / 0" = none := by
  refine ⟨?_, by decide, by decide⟩
  intro ev e
  rw [evaluator_pure e]
  cases h : denoteExpr e with
  | none => simpa using (denote_none_iff_divByZero e).mp h
  | some v =>
    constructor
    · intro hx; exact Option.noConfusion hx
    · intro hocc
      exact absurd ((denote_none_iff_divByZero e).mpr hocc) (by simp [h])

/-- C8: binary operators of equal precedence associate to the left. The
input `10 - 3 - 2` parses as (10 - 3) - 2 and evaluates to 5, and in
general, whenever two operators have equal precedence, a
number-operator-number-operator-number sequence parses with the first
operator nested under the second (left association), because the
precedence-climbing loop continues only while the next operator's
precedence is strictly greater than the current threshold. -/
theorem left_associativity :
    parseProgram (lexAll "10 - 3 - 2") =
      [ASTStatement.expression
        (.Binary
          (.Binary (.Number 10) ⟨.Minus, ⟨.Minus, ⟨3, ['-']⟩⟩⟩ (.Number 3))
          ⟨.Minus, ⟨.Minus, ⟨7, ['-']⟩⟩⟩ (.Number 2))] ∧
    mainResult "10 - 3 - 2" = some 5 ∧
    (∀ (k1 k2 : ASTBinaryOperatorKind) (n1 n2 n3 : Int),
        (⟨k1, opToken k1⟩ : ASTBinaryOperator).precedence =
            (⟨k2, opToken k2⟩ : ASTBinaryOperator).precedence →
          parseBinaryExpr 9 0
              [numToken n1, opToken k1, numToken n2, opToken k2, numToken n3,
                endToken] =
            some (.Binary
                (.Binary (.Number n1) ⟨k1, opToken k1⟩ (.Number n2))
                ⟨k2, opToken k2⟩ (.Number n3),
              [endToken])) := by
  refine ⟨by decide, by decide, ?_⟩
  intro k1 k2 n1 n2 n3 hp
  cases k1 <;> cases k2 <;> first
    | exact absurd hp (by decide)
    | rfl

/-- Witness for C8 at Minus and Minus over 10, 3, 2: the left-associated
parse (10 - 3) - 2. -/
theorem left_associativity_witness :
    parseBinaryExpr 9 0
        [numToken 10, opToken .Minus, numToken 3, opToken .Minus, numToken 2,
          endToken] =
      some (.Binary
          (.Binary (.Number 10) ⟨.Minus, opToken .Minus⟩ (.Number 3))
          ⟨.Minus, opToken .Minus⟩ (.Number 2),
        [endToken]) :=
  left_associativity.2.2 .Minus .Minus 10 3 2 rfl

/-- C9: unary minus is parsed as a Binary(Minus) node with a literal-zero
left operand consuming only the immediately following primary, so it
binds tighter than every binary operator: `-2 * 3` parses as (0 - 2) * 3
and evaluates to -6, and `-(2 + 3)` parses as 0 - (2 + 3) and evaluates
to -5. -/
theorem unary_minus_binds_tighter :
    parseProgram (lexAll "-2 * 3") =
      [ASTStatement.expression
        (.Binary
          (.Binary (.Number 0) ⟨.Minus, ⟨.Minus, ⟨0, ['-']⟩⟩⟩ (.Number 2))
          ⟨.Multiply, ⟨.Star, ⟨3, ['*']⟩⟩⟩ (.Number 3))] ∧
    mainResult "-2 * 3" = some (-6) ∧
    parseProgram (lexAll "-(2 + 3)") =
      [ASTStatement.expression
        (.Binary (.Number 0) ⟨.Minus, ⟨.Minus, ⟨0, ['-']⟩⟩⟩
          (.Parenthesized
            (.Binary (.Number 2) ⟨.Plus, ⟨.Plus, ⟨4, ['+']⟩⟩⟩ (.Number 3))))] ∧
    mainResult "-(2 + 3)" = some (-5) :=
  ⟨by decide, by decide, by decide, by decide⟩

/-- C10: when the parser produces zero statements, the evaluator's
last_value stays absent after visiting the empty AST and main panics on
the unwrap instead of printing a Result line (`mainResult` is `none`); a
Result line is printed only when at least one statement was parsed and
evaluated. -/
theorem empty_program_no_result (input : String) :
    (Ast.new.visit evalStep (some ASTEvaluator.new) = some ASTEvaluator.new ∧
      ASTEvaluator.new.last_value = none) ∧
    (parseProgram (lexAll input) = [] → mainResult input = none) ∧
    (∀ v : Int, mainResult input = some v →
      parseProgram (lexAll input) ≠ []) := by
  have hempty_result : parseProgram (lexAll input) = [] → mainResult input = none := by
    intro h
    simp [mainResult, h, Ast.visit, Ast.new, evalStep, ASTEvaluator.new]
  refine ⟨⟨rfl, rfl⟩, hempty_result, ?_⟩
  intro v hv hempty
  rw [hempty_result hempty] at hv
  exact Option.noConfusion hv

/-- Witness for C10 at the empty input: nothing parses and no Result line
is printed. -/
theorem empty_program_no_result_witness :
    parseProgram (lexAll "") = [] ∧ mainResult "" = none :=
  ⟨by decide, (empty_program_no_result "").2.1 (by decide)⟩
